import Mathlib

/-!
Shallow embedding of `src/cctv_summarizer.py` (class `CCTVSummarizer`), covering
the motion gate (`_has_motion`), frame capture gating (`capture_frame`), frame
eviction (`cleanup_old_frames`), video assembly preconditions (`generate_video`),
same-day video retention (`_cleanup_old_videos`) and duration parsing
(`_parse_duration`).

Conventions used throughout:
- a grayscale raster (numpy 2-d uint8 array) is a `List (List Nat)` of rows;
- timestamps are absolute times in seconds (`Int`); a filename stem of the form
  `YYYYMMDD_HHMMSS` is modelled as `EntryName.stamped t` where `t` is the
  absolute time the stem denotes (the Gregorian field tuple and the absolute
  time determine each other), and any other stem, on which
  `datetime.strptime(stem, '%Y%m%d_%H%M%S')` raises, as `EntryName.raw s`;
- a directory is the `List` of its entries (stem plus final extension);
- fallible operations return `Option`.
-/

namespace CCTV

/-- Grayscale raster: rows of pixel intensities (`cv2.imread(..., IMREAD_GRAYSCALE)`). -/
abbrev Frame : Type := List (List Nat)

/-- Raster dimensions `(rows, cols)`, the numpy `.shape` of a 2-d array. -/
def shape (f : Frame) : Nat × Nat := (f.length, (f.headD []).length)

/-- Per-pixel absolute difference, `cv2.absdiff(prev_frame, current_frame)`. -/
def absdiff (a b : Frame) : Frame :=
  List.zipWith (fun ra rb => List.zipWith (fun x y => max x y - min x y) ra rb) a b

/-- Binary image: `true` marks a nonzero (255) pixel of the thresholded difference. -/
abbrev BImg : Type := List (List Bool)

/-- Thresholding `cv2.threshold(frame_diff, motion_threshold, 255, THRESH_BINARY)`:
a pixel is set iff its value is strictly greater than `motion_threshold`. -/
def thresholdBin (t : Int) (f : Frame) : BImg :=
  f.map (fun row => row.map (fun v => decide (t < (v : Int))))

/-- Pixel lookup with background (`false`) outside the image bounds. -/
def pget (b : BImg) (p : Int × Int) : Bool :=
  if p.1 < 0 || p.2 < 0 then false
  else ((b.getD p.1.toNat []).getD p.2.toNat false)

/-- Coordinates of all set pixels, in row-major scan order. -/
def pixelList (b : BImg) : List (Int × Int) :=
  (List.range b.length).flatMap (fun r =>
    (List.range ((b.getD r []).length)).filterMap (fun c =>
      if (b.getD r []).getD c false then some ((r : Int), (c : Int)) else none))

/-- The eight Moore neighbours of a pixel. -/
def neighbors8 (p : Int × Int) : List (Int × Int) :=
  [(p.1 - 1, p.2 - 1), (p.1 - 1, p.2), (p.1 - 1, p.2 + 1),
   (p.1, p.2 - 1), (p.1, p.2 + 1),
   (p.1 + 1, p.2 - 1), (p.1 + 1, p.2), (p.1 + 1, p.2 + 1)]

/-- The four edge-adjacent neighbours of a pixel. -/
def neighbors4 (p : Int × Int) : List (Int × Int) :=
  [(p.1 - 1, p.2), (p.1, p.2 - 1), (p.1, p.2 + 1), (p.1 + 1, p.2)]

/-- Fuel-bounded breadth-first fill: repeatedly take the head of the frontier,
mark it visited, and enqueue its `next` successors. -/
def fill (next : Int × Int → List (Int × Int)) :
    Nat → List (Int × Int) → List (Int × Int) → List (Int × Int)
  | 0, _, visited => visited
  | _ + 1, [], visited => visited
  | n + 1, p :: rest, visited =>
    if visited.contains p then fill next n rest visited
    else fill next n (rest ++ next p) (visited ++ [p])

/-- All 8-connected components of set pixels (the connectivity
`cv2.findContours` uses for foreground), discovered in scan order. -/
def componentsOf (b : BImg) : List (List (Int × Int)) :=
  (pixelList b).foldl
    (fun acc p =>
      if acc.any (fun comp => comp.contains p) then acc
      else acc ++ [fill (fun q => (neighbors8 q).filter (fun r => pget b r))
                        (9 * (pixelList b).length + 9) [p] []])
    []

/-- Number of columns of the raster (longest row). -/
def colCount (b : BImg) : Nat := (b.map List.length).foldr max 0

/-- Whether a point lies in the one-pixel padded ring around the image. -/
def inPad (b : BImg) (p : Int × Int) : Bool :=
  decide (-1 ≤ p.1) && decide (p.1 ≤ (b.length : Int)) &&
  decide (-1 ≤ p.2) && decide (p.2 ≤ (colCount b : Int))

/-- Background pixels 4-connected to the outside of the image (computed on a
one-pixel padded ring, starting outside).  `cv2.findContours` with
`RETR_EXTERNAL` reports only components adjacent to this outer background:
components nested inside a hole of another component get no contour. -/
def outerBackground (b : BImg) : List (Int × Int) :=
  fill (fun p => (neighbors4 p).filter (fun q => inPad b q && !pget b q))
       (5 * ((b.length + 2) * (colCount b + 2)) + 9)
       [((-1 : Int), (-1 : Int))] []

/-- Whether a component touches the outer background (and hence gets an
external contour under `RETR_EXTERNAL`). -/
def isExternalComp (b : BImg) (comp : List (Int × Int)) : Bool :=
  comp.any (fun p => (neighbors8 p).any (fun q => (outerBackground b).contains q))

/-- Direction vectors `(dr, dc)` in clockwise order starting East, used to scan
the Moore neighbourhood during border following. -/
def dirs : List (Int × Int) :=
  [(0, 1), (1, 1), (1, 0), (1, -1), (0, -1), (-1, -1), (-1, 0), (-1, 1)]

/-- Index of a neighbour offset in `dirs`. -/
def dirIndex (v : Int × Int) : Nat := dirs.findIdx (fun d => d == v)

/-- One step of Moore border following: from current pixel `c` entered with
backtrack point `prev`, scan the neighbourhood clockwise starting just past the
direction of `prev`; return the first set pixel found, or `none` for an
isolated pixel. -/
def traceStep (b : BImg) (c prev : Int × Int) : Option (Int × Int) :=
  let i := dirIndex (prev.1 - c.1, prev.2 - c.2)
  (List.range 8).findSome? (fun k =>
    let d := dirs.getD ((i + 1 + k) % 8) (0, 1)
    let q := (c.1 + d.1, c.2 + d.2)
    if pget b q then some q else none)

/-- Fuel-bounded border-following loop.  The state is the current pixel and the
previous contour pixel; tracing stops when the initial transition
`start → first` is about to repeat (Jacob's stopping criterion). -/
def traceLoop (b : BImg) (s first : Int × Int) :
    Nat → Int × Int → Int × Int → List (Int × Int) → List (Int × Int)
  | 0, _, _, acc => acc
  | n + 1, c, prev, acc =>
    match traceStep b c prev with
    | none => acc
    | some nxt =>
      if c = s ∧ nxt = first then acc
      else traceLoop b s first n nxt c (acc ++ [nxt])

/-- Outer-border trace of one connected component, the point sequence
`cv2.findContours` records for it: start at the topmost-then-leftmost pixel
(whose west neighbour is background) and follow the border clockwise. -/
def traceContour (b : BImg) (comp : List (Int × Int)) : List (Int × Int) :=
  match comp.foldr (fun p acc =>
      match acc with
      | none => some p
      | some q => if p.1 < q.1 ∨ (p.1 = q.1 ∧ p.2 < q.2) then some p else some q) none with
  | none => []
  | some s =>
    match traceStep b s (s.1, s.2 - 1) with
    | none => [s]
    | some first => traceLoop b s first (8 * comp.length + 8) first s [s, first]

/-- External contours of a binary image:
`cv2.findContours(thresh, RETR_EXTERNAL, CHAIN_APPROX_SIMPLE)`.
(`CHAIN_APPROX_SIMPLE` merely drops collinear intermediate points, which does
not change the polygon or its area, so the uncompressed trace is kept.) -/
def contoursOf (b : BImg) : List (List (Int × Int)) :=
  ((componentsOf b).filter (fun comp => isExternalComp b comp)).map (traceContour b)

/-- Cross product term of the shoelace formula; points are `(row, col)`. -/
def cross (p q : Int × Int) : Int := p.2 * q.1 - q.2 * p.1

/-- Twice the signed area of the closed polygon through the contour points. -/
def shoelace2 : List (Int × Int) → Int
  | [] => 0
  | p0 :: rest =>
    (((p0 :: rest).zip (rest ++ [p0])).map (fun pq => cross pq.1 pq.2)).sum

/-- Twice the polygon area of a contour: the absolute value of the shoelace
sum over the recorded boundary points. -/
def contourArea2 (pts : List (Int × Int)) : Nat := (shoelace2 pts).natAbs

/-- Polygon area of a contour, `cv2.contourArea(c)`: half the absolute value of
the shoelace sum over the recorded boundary points (the float the library
returns is this rational exactly, boundary coordinates being small integers). -/
def contourArea (pts : List (Int × Int)) : ℚ := (contourArea2 pts : ℚ) / 2

/-- Contours of the thresholded difference of two rasters: the contour list
`_has_motion` computes for a reference frame and a new frame of equal shape. -/
def motionContours (mt : Int) (prev img : Frame) : List (List (Int × Int)) :=
  contoursOf (thresholdBin mt (absdiff prev img))

/-- Embedding of `CCTVSummarizer._has_motion` (src/cctv_summarizer.py:193-274).
Inputs: `rz` stands for `cv2.resize` (an external collaborator, left abstract),
`mt`/`ma` are the camera's `motion_threshold`/`min_motion_area`, `ref` is
`self.previous_frames.get(cam_id)` and `cur` is the result of `cv2.imread`
(`none` when the frame fails to decode).  Returns the keep decision together
with the reference frame stored after the call.  The source's per-contour test
`cv2.contourArea(c) > min_motion_area`, i.e. `contourArea c > ma` over exact
rationals, is written in the equivalent integer form
`2 * ma < contourArea2 c` (see `contourArea_gt_iff`). -/
def evaluateGate (rz : Frame → Nat × Nat → Frame) (mt ma : Int)
    (ref : Option Frame) (cur : Option Frame) : Bool × Option Frame :=
  match cur with
  | none => (true, ref)
  | some img =>
    match ref with
    | none => (true, some img)
    | some prev =>
      let prev2 := if shape img ≠ shape prev then rz prev (shape img) else prev
      let cs := motionContours mt prev2 img
      let hasMotion := cs.any (fun c => decide (2 * ma < (contourArea2 c : Int)))
      (hasMotion, if hasMotion then some img else some prev)

/-- Filename stem of a directory entry.  A stem of the form `YYYYMMDD_HHMMSS`
(as written by `timestamp.strftime('%Y%m%d_%H%M%S')`) is `stamped t` with `t`
the absolute time in seconds it denotes; every other stem, on which
`datetime.strptime(stem, '%Y%m%d_%H%M%S')` raises `ValueError`, is `raw s`. -/
inductive EntryName : Type
  | stamped (t : Int)
  | raw (s : String)
deriving DecidableEq

/-- Result of `datetime.strptime(stem, '%Y%m%d_%H%M%S')`: the denoted absolute
time on success, `none` when the call raises. -/
def EntryName.parse : EntryName → Option Int
  | .stamped t => some t
  | .raw _ => none

/-- One directory entry: filename stem plus final extension (`Path.stem` and
`Path.suffix` without the dot), so the file's name is `stem ++ "." ++ ext`. -/
structure FileEntry : Type where
  stem : EntryName
  ext : String
deriving DecidableEq

/-- The test `video_file.name.startswith('latest.')`
(src/cctv_summarizer.py:408).  The full name `stem ++ "." ++ ext` starts with
the 7 characters `latest.` exactly when the stem is `latest` itself or the stem
already starts with `latest.`; a `stamped` stem is all digits and an
underscore, so it never does. -/
def isLatestAlias (e : FileEntry) : Bool :=
  match e.stem with
  | .stamped _ => false
  | .raw s => s == "latest" || s.startsWith "latest."

/-- Expiry test of `cleanup_old_frames` (src/cctv_summarizer.py:276-295) for a
single entry: the sweep deletes exactly the `*.jpg` entries whose parsed stem
is strictly before `cutoff_time = now - summary_duration`; entries whose stem
fails to parse raise inside the `try`, are logged and kept. -/
def frameExpired (now dur : Int) (e : FileEntry) : Bool :=
  e.ext == "jpg" &&
    (match e.stem.parse with
     | some t => decide (t < now - dur)
     | none => false)

/-- Embedding of `CCTVSummarizer.cleanup_old_frames`: the frame directory after
the sweep, `now` being `datetime.now()` and `dur` being `self.summary_duration`
in seconds. -/
def cleanupOldFrames (now dur : Int) (dir : List FileEntry) : List FileEntry :=
  dir.filter (fun e => !frameExpired now dur e)

/-- Per-camera state the gate touches: the in-memory reference frame
(`self.previous_frames[cam_id]`) and the camera's frame directory on disk. -/
structure CamState : Type where
  ref : Option Frame
  frames : List FileEntry
deriving DecidableEq

/-- Embedding of the frame-retention part of `CCTVSummarizer.capture_frame`
(src/cctv_summarizer.py:143-191).  `captured = none` models an ffmpeg failure
or timeout (no file produced); `captured = some (img, t)` models a successful
capture at time `t`, written to disk as `t.jpg`, with `img` the result of the
subsequent `cv2.imread` (`none` when decoding fails).  When `track_changes` is
set and the gate reports no motion, the freshly written file is unlinked. -/
def captureStep (rz : Frame → Nat × Nat → Frame) (trackChanges : Bool)
    (mt ma : Int) (captured : Option (Option Frame × Int)) (st : CamState) :
    Option FileEntry × CamState :=
  match captured with
  | none => (none, st)
  | some (img, t) =>
    let entry : FileEntry := ⟨.stamped t, "jpg"⟩
    if trackChanges then
      let r := evaluateGate rz mt ma st.ref img
      if r.1 then (some entry, ⟨r.2, st.frames ++ [entry]⟩)
      else (none, ⟨r.2, st.frames⟩)
    else (some entry, ⟨st.ref, st.frames ++ [entry]⟩)

/-- Association-list update used to model the Python dict
`videos_by_date`: append the value to the group of its key, creating the group
at the end on first sight (Python dicts preserve insertion order). -/
def addToGroups {V : Type} (acc : List (Int × List V)) (k : Int) (v : V) :
    List (Int × List V) :=
  match acc with
  | [] => [(k, [v])]
  | (k0, g0) :: rest =>
    if k0 = k then (k0, g0 ++ [v]) :: rest else (k0, g0) :: addToGroups rest k v

/-- Grouping a list by an integer key, preserving encounter order of keys and
of values within a key, as the `for` loop building `videos_by_date` does. -/
def groupByKey {V : Type} (key : V → Int) (l : List V) : List (Int × List V) :=
  l.foldl (fun acc v => addToGroups acc (key v) v) []

/-- Association-list lookup, the proof-side view of the dict built by
`addToGroups`. -/
def lookupG {V : Type} : List (Int × List V) → Int → Option (List V)
  | [], _ => none
  | (k0, g) :: rest, k => if k0 = k then some g else lookupG rest k

/-- Calendar date of an absolute time, `video_time.date()`: the day number
containing `t` (days start at midnight, i.e. at multiples of 86400 s). -/
def dateOf (t : Int) : Int := Int.fdiv t 86400

/-- The `video_files` list of `_cleanup_old_videos` (src/cctv_summarizer.py:
404-416): for each entry matched by `glob('*.mp4')`, skip the `latest.` alias,
parse the stem, and keep `(file, time)`; entries whose stem fails to parse
raise and are skipped. -/
def videoEntry (e : FileEntry) : Option (FileEntry × Int) :=
  if e.ext = "mp4" ∧ isLatestAlias e = false then
    e.stem.parse.map (fun t => (e, t))
  else none

/-- All parsed, non-alias `*.mp4` entries of a video directory. -/
def videoFiles (dir : List FileEntry) : List (FileEntry × Int) :=
  dir.filterMap videoEntry

/-- The comparison `video_files.sort(key=lambda x: x[1], reverse=True)` sorts
by: the earlier element stays before the later one exactly when its time is at
least the later one's (stable descending order by timestamp).  Python's stable
sort is modelled by Mathlib's stable `List.insertionSort`. -/
def sortedVideos (dir : List FileEntry) : List (FileEntry × Int) :=
  List.insertionSort (fun a b => b.2 ≤ a.2) (videoFiles dir)

/-- The dict `videos_by_date`, keyed by calendar date, in insertion order of
the descending-sorted list. -/
def videosByDate (dir : List FileEntry) : List (Int × List (FileEntry × Int)) :=
  groupByKey (fun v => dateOf v.2) (sortedVideos dir)

/-- Entries unlinked by `_cleanup_old_videos`: for every date group, all videos
except the first (newest) one.  The source iterates the dates in ascending
order, which only fixes the order of the `unlink` calls, not the deleted set. -/
def deletedVideos (dir : List FileEntry) : List FileEntry :=
  ((videosByDate dir).map (fun kg => (kg.2.drop 1).map Prod.fst)).flatten

/-- Embedding of `CCTVSummarizer._cleanup_old_videos`
(src/cctv_summarizer.py:400-446): the video directory after the same-day
retention sweep. -/
def cleanupOldVideos (dir : List FileEntry) : List FileEntry :=
  dir.filter (fun e => decide (e ∉ deletedVideos dir))

/-- Outcome of one `generate_video` run: whether the external encoder was
invoked, the video produced (if any), and the video directory afterwards. -/
structure GenOutcome : Type where
  encodeCalled : Bool
  video : Option FileEntry
  videosDir : List FileEntry
deriving DecidableEq

/-- Embedding of `CCTVSummarizer.generate_video` (src/cctv_summarizer.py:
297-378) at the granularity of the frame-count precondition, the encoder call,
the optional `latest` link and the retention sweep.  `frames = sorted(glob(
'*.jpg'))` has fewer than 2 elements exactly when the jpg entries of the frame
directory number fewer than 2; in that case the function logs and returns
before building the playlist or invoking ffmpeg.  `encodeOk` models the
external encoder succeeding and leaving the output file in place. -/
def generateVideo (encodeOk createLatestLink : Bool) (now : Int) (fmt : String)
    (framesDir videosDir : List FileEntry) : GenOutcome :=
  if ((framesDir.filter (fun e => e.ext == "jpg")).length < 2) then
    ⟨false, none, videosDir⟩
  else
    let out : FileEntry := ⟨.stamped now, fmt⟩
    if encodeOk then
      let dir1 := videosDir ++ [out]
      let dir2 :=
        if createLatestLink then
          dir1.filter (fun e => !(e == ⟨.raw "latest", fmt⟩)) ++ [⟨.raw "latest", fmt⟩]
        else dir1
      ⟨true, some out, cleanupOldVideos dir2⟩
    else ⟨true, none, videosDir⟩

/-- Unit table of `_parse_duration` (src/cctv_summarizer.py:119-131):
`units.get(unit, 1)` yields 1 for every character other than the four unit
suffixes. -/
def unitFactor (c : Char) : Int :=
  if c = 's' then 1
  else if c = 'm' then 60
  else if c = 'h' then 3600
  else if c = 'd' then 86400
  else 1

/-- Value of a digit string, most significant digit first. -/
def digitsVal (cs : List Char) : Nat :=
  cs.foldl (fun a c => 10 * a + (c.toNat - 48)) 0

/-- Python `int(str)` on a string modelled as its character list: strip
whitespace, allow one optional sign, then at least one decimal digit; `none`
models the `ValueError` raised otherwise.  (Python additionally accepts
underscore digit separators, which no input of this program uses.) -/
def pyInt (cs : List Char) : Option Int :=
  let t := ((cs.dropWhile Char.isWhitespace).reverse.dropWhile Char.isWhitespace).reverse
  match t with
  | [] => none
  | c :: rest =>
    if c = '+' then
      if rest ≠ [] ∧ rest.all Char.isDigit then some (digitsVal rest : Int) else none
    else if c = '-' then
      if rest ≠ [] ∧ rest.all Char.isDigit then some (-(digitsVal rest : Int)) else none
    else if t.all Char.isDigit then some (digitsVal t : Int) else none

/-- Embedding of `CCTVSummarizer._parse_duration` on the character list of the
duration string: `unit = duration_str[-1]` raises `IndexError` on an empty
string, `value = int(duration_str[:-1])` raises `ValueError` when the prefix is
not an integer literal; both raises are modelled as `none`.  On success the
result is `value * units.get(unit, 1)` seconds. -/
def parseDuration (cs : List Char) : Option Int :=
  match cs.getLast? with
  | none => none
  | some unit =>
    match pyInt cs.dropLast with
    | none => none
    | some v => some (v * unitFactor unit)

/-!
Theorems.  Each claim of the specification review is settled by one theorem
below (with a witness instantiation when the theorem carries hypotheses).
-/

/-- The integer test used inside `evaluateGate` is exactly the source's
rational comparison `contourArea c > min_motion_area`. -/
theorem contourArea_gt_iff (ma : Int) (c : List (Int × Int)) :
    (ma : ℚ) < contourArea c ↔ 2 * ma < (contourArea2 c : Int) := by
  rw [contourArea, lt_div_iff₀ (by norm_num : (0 : ℚ) < 2)]
  constructor
  · intro h
    have h2 : ((2 * ma : Int) : ℚ) < ((contourArea2 c : Nat) : ℚ) := by push_cast; linarith
    exact_mod_cast h2
  · intro h
    have h2 : ((2 * ma : Int) : ℚ) < ((contourArea2 c : Nat) : ℚ) := by exact_mod_cast h
    push_cast at h2; linarith

/-- Reduction of the gate on a present reference and a decoded frame. -/
theorem evaluateGate_some_some (rz : Frame → Nat × Nat → Frame) (mt ma : Int)
    (prev img : Frame) :
    evaluateGate rz mt ma (some prev) (some img) =
      ((motionContours mt (if shape img ≠ shape prev then rz prev (shape img) else prev)
          img).any (fun c => decide (2 * ma < (contourArea2 c : Int))),
       if (motionContours mt (if shape img ≠ shape prev then rz prev (shape img) else prev)
          img).any (fun c => decide (2 * ma < (contourArea2 c : Int))) then some img
       else some prev) := rfl

/-- C5: for every camera with no stored reference frame (cold start), the
motion gate keeps the first successfully decoded frame and afterwards the
stored reference for that camera equals that frame. -/
theorem coldStart_keeps_and_stores (rz : Frame → Nat × Nat → Frame)
    (mt ma : Int) (img : Frame) :
    evaluateGate rz mt ma none (some img) = (true, some img) := rfl

/-- C6: if the new frame fails to decode during motion-gate evaluation, the
gate returns keep = true and the stored reference frame is not updated. -/
theorem decodeFailure_keeps_and_preserves (rz : Frame → Nat × Nat → Frame)
    (mt ma : Int) (ref : Option Frame) :
    evaluateGate rz mt ma ref none = (true, ref) := rfl

/-- C4: with a stored reference frame and a decodable new frame, the stored
reference is replaced by the new frame when the gate classifies motion, and is
left unchanged (still the last kept frame) when it does not. -/
theorem reference_updated_iff_motion (rz : Frame → Nat × Nat → Frame)
    (mt ma : Int) (prev img : Frame) :
    ((evaluateGate rz mt ma (some prev) (some img)).1 = true →
      (evaluateGate rz mt ma (some prev) (some img)).2 = some img) ∧
    ((evaluateGate rz mt ma (some prev) (some img)).1 = false →
      (evaluateGate rz mt ma (some prev) (some img)).2 = some prev) := by
  rw [evaluateGate_some_some]
  generalize (motionContours mt
      (if shape img ≠ shape prev then rz prev (shape img) else prev) img).any
      (fun c => decide (2 * ma < (contourArea2 c : Int))) = b
  cases b <;> simp

/-- Witness for C4 at a concrete motion-bearing input: a 3-by-3 block of
intensity change 40 against threshold 25 triggers motion at
min_motion_area 3, and the reference becomes the new frame. -/
theorem reference_updated_iff_motion_witness :
    (evaluateGate (fun f _ => f) 25 3
      (some [[0,0,0,0,0],[0,0,0,0,0],[0,0,0,0,0],[0,0,0,0,0],[0,0,0,0,0]])
      (some [[0,0,0,0,0],[0,40,40,40,0],[0,40,40,40,0],[0,40,40,40,0],[0,0,0,0,0]])).2 =
      some [[0,0,0,0,0],[0,40,40,40,0],[0,40,40,40,0],[0,40,40,40,0],[0,0,0,0,0]] :=
  (reference_updated_iff_motion (fun f _ => f) 25 3
    [[0,0,0,0,0],[0,0,0,0,0],[0,0,0,0,0],[0,0,0,0,0],[0,0,0,0,0]]
    [[0,0,0,0,0],[0,40,40,40,0],[0,40,40,40,0],[0,40,40,40,0],[0,0,0,0,0]]).1
    (by decide)

/-- C7: with motion gating disabled (`track_changes` unset), every successfully
captured frame is returned and appended to the stored frame set; the gate is
bypassed and the reference untouched. -/
theorem gating_disabled_keeps_all (rz : Frame → Nat × Nat → Frame)
    (mt ma : Int) (img : Option Frame) (t : Int) (st : CamState) :
    captureStep rz false mt ma (some (img, t)) st =
      (some ⟨.stamped t, "jpg"⟩, ⟨st.ref, st.frames ++ [⟨.stamped t, "jpg"⟩]⟩) ∧
    (⟨.stamped t, "jpg"⟩ : FileEntry) ∈
      (captureStep rz false mt ma (some (img, t)) st).2.frames := by
  constructor
  · simp [captureStep]
  · simp [captureStep]

/-- C8: if fewer than 2 jpg frames are stored for the camera, video assembly
returns no video, never calls the external encoder, and leaves the video
directory unchanged. -/
theorem assembly_noop_on_few_frames (encodeOk createLatestLink : Bool)
    (now : Int) (fmt : String) (framesDir videosDir : List FileEntry)
    (h : (framesDir.filter (fun e => e.ext == "jpg")).length < 2) :
    generateVideo encodeOk createLatestLink now fmt framesDir videosDir =
      ⟨false, none, videosDir⟩ := by
  simp [generateVideo, h]

/-- Witness for C8: one stored frame, encoder available, still a no-op. -/
theorem assembly_noop_on_few_frames_witness :
    generateVideo true false 5 "mp4" [⟨.stamped 1, "jpg"⟩] [⟨.stamped 0, "mp4"⟩] =
      ⟨false, none, [⟨.stamped 0, "mp4"⟩]⟩ :=
  assembly_noop_on_few_frames true false 5 "mp4" [⟨.stamped 1, "jpg"⟩]
    [⟨.stamped 0, "mp4"⟩] (by decide)

/-- C3: frame eviction deletes exactly the jpg entries whose embedded timestamp
is strictly older than `now - summary_duration`, and entries whose stem does
not parse as a timestamp are never deleted. -/
theorem eviction_deletes_exactly_expired (now dur : Int) (dir : List FileEntry) :
    (∀ e t, e ∈ dir → e.ext = "jpg" → e.stem.parse = some t →
      (e ∈ cleanupOldFrames now dur dir ↔ ¬ t < now - dur)) ∧
    (∀ e, e ∈ dir → e.stem.parse = none → e ∈ cleanupOldFrames now dur dir) := by
  constructor
  · intro e t he hext hparse
    simp [cleanupOldFrames, List.mem_filter, he, frameExpired, hext, hparse]
  · intro e he hparse
    simp [cleanupOldFrames, List.mem_filter, he, frameExpired, hparse]

/-- Witness for C3, the spec scenario: `summary_duration = 86400` s at
`now = 100000` s; a frame aged 90000 s is deleted, one aged 80000 s is kept. -/
theorem eviction_deletes_exactly_expired_witness :
    (⟨.stamped 20000, "jpg"⟩ : FileEntry) ∈
      cleanupOldFrames 100000 86400 [⟨.stamped 10000, "jpg"⟩, ⟨.stamped 20000, "jpg"⟩] ∧
    (⟨.stamped 10000, "jpg"⟩ : FileEntry) ∉
      cleanupOldFrames 100000 86400 [⟨.stamped 10000, "jpg"⟩, ⟨.stamped 20000, "jpg"⟩] :=
  ⟨((eviction_deletes_exactly_expired 100000 86400
      [⟨.stamped 10000, "jpg"⟩, ⟨.stamped 20000, "jpg"⟩]).1
      ⟨.stamped 20000, "jpg"⟩ 20000 (by decide) rfl rfl).mpr (by decide),
   fun h =>
    ((eviction_deletes_exactly_expired 100000 86400
      [⟨.stamped 10000, "jpg"⟩, ⟨.stamped 20000, "jpg"⟩]).1
      ⟨.stamped 10000, "jpg"⟩ 10000 (by decide) rfl rfl).mp h (by decide)⟩

/-- C1 counterexample: with a stored reference frame, `motion_threshold = 25`
and `min_motion_area = 1`, a frame pair differing in a single 8-connected
changed region of pixel area 2 = `min_motion_area + 1` is classified
no-motion (and the reference kept), because the area the code compares is
`cv2.contourArea` of the traced boundary (here 0), not the pixel count.  This
falsifies the claim that pixel area `min_motion_area + 1` always triggers
motion. -/
theorem motion_pixel_area_counterexample :
    (componentsOf (thresholdBin 25
        (absdiff [[0,0,0],[0,0,0],[0,0,0]] [[0,0,0],[40,40,0],[0,0,0]]))).map
        List.length = [2] ∧
    evaluateGate (fun f _ => f) 25 1 (some [[0,0,0],[0,0,0],[0,0,0]])
        (some [[0,0,0],[40,40,0],[0,0,0]]) =
      (false, some [[0,0,0],[0,0,0],[0,0,0]]) := by decide

/-- C1 (amended): with a stored reference frame of the new frame's shape, the
gate classifies motion exactly when some external contour of the thresholded
absolute difference (changed = per-pixel difference strictly above
`motion_threshold`) has `cv2.contourArea` polygon area strictly greater than
`min_motion_area`; that polygon area is smaller than the region's pixel count,
so with `min_motion_area = 3` a single contiguous region of pixel area 2
(`min_motion_area - 1`) is classified no-motion, a 3-by-3-pixel region
(polygon area 4 > 3) is classified motion, and pixel area
`min_motion_area + 1` need not trigger motion. -/
theorem motion_iff_contour_area_exceeds :
    (∀ (rz : Frame → Nat × Nat → Frame) (mt ma : Int) (prev img : Frame),
      shape img = shape prev →
      ((evaluateGate rz mt ma (some prev) (some img)).1 = true ↔
        ∃ c ∈ motionContours mt prev img, (ma : ℚ) < contourArea c)) ∧
    ((componentsOf (thresholdBin 25
        (absdiff [[0,0,0],[0,0,0],[0,0,0]] [[40,40,0],[0,0,0],[0,0,0]]))).map
        List.length = [2] ∧
      (evaluateGate (fun f _ => f) 25 3 (some [[0,0,0],[0,0,0],[0,0,0]])
        (some [[40,40,0],[0,0,0],[0,0,0]])).1 = false) ∧
    (evaluateGate (fun f _ => f) 25 3
      (some [[0,0,0,0,0],[0,0,0,0,0],[0,0,0,0,0],[0,0,0,0,0],[0,0,0,0,0]])
      (some [[0,0,0,0,0],[0,40,40,40,0],[0,40,40,40,0],[0,40,40,40,0],[0,0,0,0,0]])).1 =
      true := by
  refine ⟨?_, by decide, by decide⟩
  intro rz mt ma prev img h
  rw [evaluateGate_some_some]
  have hif : (if shape img ≠ shape prev then rz prev (shape img) else prev) = prev := by
    simp [h]
  rw [hif]
  simp [List.any_eq_true, contourArea_gt_iff]

/-- Witness for C1 (amended) at the 3-by-3 block input: the gate reports
motion, so a contour of area above `min_motion_area = 3` exists. -/
theorem motion_iff_contour_area_exceeds_witness :
    ∃ c ∈ motionContours 25
      [[0,0,0,0,0],[0,0,0,0,0],[0,0,0,0,0],[0,0,0,0,0],[0,0,0,0,0]]
      [[0,0,0,0,0],[0,40,40,40,0],[0,40,40,40,0],[0,40,40,40,0],[0,0,0,0,0]],
      ((3 : Int) : ℚ) < contourArea c :=
  (motion_iff_contour_area_exceeds.1 (fun f _ => f) 25 3
    [[0,0,0,0,0],[0,0,0,0,0],[0,0,0,0,0],[0,0,0,0,0],[0,0,0,0,0]]
    [[0,0,0,0,0],[0,40,40,40,0],[0,40,40,40,0],[0,40,40,40,0],[0,0,0,0,0]]
    rfl).mp (by decide)

/-- C10 counterexample: the duration string `5` ends in a character that is
none of `s`, `m`, `h`, `d`, yet parsing fails (`int(` `)` raises on the empty
prefix) instead of succeeding. -/
theorem parse_duration_counterexample :
    parseDuration ['5'] = none ∧
    ('5' ≠ 's' ∧ '5' ≠ 'm' ∧ '5' ≠ 'h' ∧ '5' ≠ 'd') := by decide

/-- C10 (amended): for every duration string whose prefix before the final
character is an integer literal and whose final character is none of `s`, `m`,
`h`, `d`, parsing succeeds by discarding the final character and returning the
prefix's value as seconds — in particular `300` parses as 30 seconds — but
when the remaining prefix is not an integer literal, parsing fails. -/
theorem parse_duration_discards_unknown_unit :
    (∀ (cs : List Char) (c : Char) (v : Int), pyInt cs = some v →
      c ≠ 's' → c ≠ 'm' → c ≠ 'h' → c ≠ 'd' →
      parseDuration (cs ++ [c]) = some v) ∧
    parseDuration ['3', '0', '0'] = some 30 := by
  refine ⟨?_, by decide⟩
  intro cs c v hint hs hm hh hd
  have hlast : (cs ++ [c]).getLast? = some c := by
    simp [List.getLast?_concat]
  have hdrop : (cs ++ [c]).dropLast = cs := by
    simp [List.dropLast_concat]
  simp [parseDuration, hlast, hdrop, hint, unitFactor, hs, hm, hh, hd]

/-- Witness for C10 (amended): the numeric prefix `30` followed by the
non-unit character `0`. -/
theorem parse_duration_discards_unknown_unit_witness :
    parseDuration (['3', '0'] ++ ['0']) = some 30 :=
  parse_duration_discards_unknown_unit.1 ['3', '0'] '0' 30 (by decide)
    (by decide) (by decide) (by decide) (by decide)

/-- C9: frame eviction is idempotent: a second sweep at the same time with the
same duration and no new frames leaves the retained set unchanged. -/
theorem eviction_idempotent (now dur : Int) (dir : List FileEntry) :
    cleanupOldFrames now dur (cleanupOldFrames now dur dir) =
      cleanupOldFrames now dur dir := by
  simp [cleanupOldFrames, List.filter_filter]

/-!
Helper lemmas for the same-day video-retention sweep (C2): the dict built by
`addToGroups` is described through the association lookup `lookupG`, the
grouping of a list through `List.filter`, and the sorted list through
Mathlib's insertion-sort lemmas.
-/

theorem lookupG_addToGroups {V : Type} (acc : List (Int × List V)) (k k2 : Int)
    (v : V) :
    lookupG (addToGroups acc k v) k2 =
      if k2 = k then some ((lookupG acc k).getD [] ++ [v]) else lookupG acc k2 := by
  induction acc with
  | nil =>
    by_cases h : k2 = k
    · subst h; simp [addToGroups, lookupG]
    · simp [addToGroups, lookupG, h, Ne.symm h]
  | cons hd rest ih =>
    obtain ⟨k0, g0⟩ := hd
    by_cases h0 : k0 = k
    · subst h0
      by_cases h2 : k2 = k0
      · subst h2; simp [addToGroups, lookupG]
      · simp [addToGroups, lookupG, h2, Ne.symm h2]
    · by_cases h2 : k2 = k0
      · subst h2
        simp [addToGroups, lookupG, h0]
      · simp [addToGroups, lookupG, h0, Ne.symm h2, h2, ih]

theorem keys_addToGroups {V : Type} (acc : List (Int × List V)) (k : Int) (v : V) :
    (addToGroups acc k v).map Prod.fst =
      if k ∈ acc.map Prod.fst then acc.map Prod.fst
      else acc.map Prod.fst ++ [k] := by
  induction acc with
  | nil => simp [addToGroups]
  | cons hd rest ih =>
    obtain ⟨k0, g0⟩ := hd
    by_cases h0 : k0 = k
    · subst h0; simp [addToGroups]
    · have hne : ¬ k = k0 := Ne.symm h0
      simp only [addToGroups, h0, if_false, List.map_cons, List.mem_cons, hne,
        false_or, ih]
      by_cases hk : k ∈ rest.map Prod.fst <;> simp [hk]

theorem keysNodup_addToGroups {V : Type} (acc : List (Int × List V)) (k : Int)
    (v : V) (h : (acc.map Prod.fst).Nodup) :
    ((addToGroups acc k v).map Prod.fst).Nodup := by
  rw [keys_addToGroups]
  by_cases hk : k ∈ acc.map Prod.fst
  · simpa [hk] using h
  · rw [if_neg hk, ← List.concat_eq_append]
    exact h.concat hk

theorem mem_of_lookupG {V : Type} (acc : List (Int × List V)) (k : Int)
    (g : List V) (h : lookupG acc k = some g) : (k, g) ∈ acc := by
  induction acc with
  | nil => simp [lookupG] at h
  | cons hd rest ih =>
    obtain ⟨k0, g0⟩ := hd
    by_cases h0 : k0 = k
    · subst h0
      simp [lookupG] at h
      simp [h]
    · simp only [lookupG, h0, if_false] at h
      exact List.mem_cons_of_mem _ (ih h)

theorem lookupG_of_mem {V : Type} (acc : List (Int × List V)) (k : Int)
    (g : List V) (hnd : (acc.map Prod.fst).Nodup) (h : (k, g) ∈ acc) :
    lookupG acc k = some g := by
  induction acc with
  | nil => simp at h
  | cons hd rest ih =>
    obtain ⟨k0, g0⟩ := hd
    rcases List.mem_cons.mp h with heq | hrest
    · injection heq with hk hg
      subst hk; subst hg
      simp [lookupG]
    · have h0 : ¬ k0 = k := by
        rintro rfl
        exact (List.nodup_cons.mp hnd).1
          (List.mem_map.mpr ⟨(k0, g), hrest, rfl⟩)
      rw [lookupG, if_neg h0]
      exact ih (List.nodup_cons.mp hnd).2 hrest

theorem groupByKey_concat {V : Type} (key : V → Int) (l : List V) (v : V) :
    groupByKey key (l ++ [v]) = addToGroups (groupByKey key l) (key v) v := by
  simp [groupByKey, List.foldl_append]

theorem keysNodup_groupByKey {V : Type} (key : V → Int) (l : List V) :
    ((groupByKey key l).map Prod.fst).Nodup := by
  induction l using List.reverseRecOn with
  | nil => simp [groupByKey]
  | append_singleton l v ih =>
    rw [groupByKey_concat]
    exact keysNodup_addToGroups _ _ _ ih

theorem lookupG_groupByKey {V : Type} (key : V → Int) (l : List V) (k : Int) :
    lookupG (groupByKey key l) k =
      if (l.filter (fun v => decide (key v = k))).isEmpty = true then none
      else some (l.filter (fun v => decide (key v = k))) := by
  induction l using List.reverseRecOn with
  | nil => simp [groupByKey, lookupG]
  | append_singleton l v ih =>
    rw [groupByKey_concat, lookupG_addToGroups]
    by_cases hk : k = key v
    · subst hk
      have hfil : (l ++ [v]).filter (fun w => decide (key w = key v)) =
          l.filter (fun w => decide (key w = key v)) ++ [v] := by
        simp [List.filter_append]
      rw [if_pos rfl, hfil, ih]
      by_cases h0 : (l.filter (fun w => decide (key w = key v))).isEmpty = true
      · have hnil : l.filter (fun w => decide (key w = key v)) = [] :=
          List.isEmpty_iff.mp h0
        simp [h0, hnil]
      · simp [h0]
    · have hfil : (l ++ [v]).filter (fun w => decide (key w = k)) =
          l.filter (fun w => decide (key w = k)) := by
        simp [List.filter_append, Ne.symm hk]
      rw [if_neg hk, hfil, ih]

theorem mem_groupByKey {V : Type} (key : V → Int) (l : List V) (k : Int)
    (g : List V) :
    (k, g) ∈ groupByKey key l ↔
      g = l.filter (fun v => decide (key v = k)) ∧ g ≠ [] := by
  constructor
  · intro h
    have hl := lookupG_of_mem _ _ _ (keysNodup_groupByKey key l) h
    rw [lookupG_groupByKey] at hl
    by_cases h0 : (l.filter (fun v => decide (key v = k))).isEmpty = true
    · rw [if_pos h0] at hl; cases hl
    · rw [if_neg h0] at hl
      injection hl with hl
      refine ⟨hl.symm, ?_⟩
      rw [hl.symm]
      simpa [List.isEmpty_iff] using h0
  · rintro ⟨rfl, hne⟩
    refine mem_of_lookupG _ _ _ ?_
    rw [lookupG_groupByKey, if_neg (by simpa [List.isEmpty_iff] using hne)]

theorem videoEntry_eq_some {a : FileEntry} {b : FileEntry × Int}
    (h : videoEntry a = some b) :
    b.1 = a ∧ a.ext = "mp4" ∧ isLatestAlias a = false ∧ a.stem.parse = some b.2 := by
  unfold videoEntry at h
  split_ifs at h with hc
  obtain ⟨t, hp, hb⟩ := Option.map_eq_some'.mp h
  subst hb
  exact ⟨rfl, hc.1, hc.2, hp⟩

theorem mem_videoFiles {dir : List FileEntry} {e : FileEntry} {t : Int} :
    (e, t) ∈ videoFiles dir ↔
      e ∈ dir ∧ e.ext = "mp4" ∧ isLatestAlias e = false ∧ e.stem.parse = some t := by
  unfold videoFiles
  rw [List.mem_filterMap]
  constructor
  · rintro ⟨a, ha, hv⟩
    obtain ⟨h1, h2, h3, h4⟩ := videoEntry_eq_some hv
    have : a = e := h1.symm
    subst this
    exact ⟨ha, h2, h3, h4⟩
  · rintro ⟨he, hext, hlat, hparse⟩
    exact ⟨e, he, by simp [videoEntry, hext, hlat, hparse]⟩

theorem parse_eq_some_iff {n : EntryName} {t : Int} :
    n.parse = some t ↔ n = .stamped t := by
  cases n <;> simp [EntryName.parse]

theorem isLatestAlias_of_parse {e : FileEntry} {t : Int}
    (h : e.stem.parse = some t) : isLatestAlias e = false := by
  obtain ⟨st, ex⟩ := e
  have hst : st = .stamped t := parse_eq_some_iff.mp h
  subst hst
  rfl

theorem videoFiles_time_inj {dir : List FileEntry} {e1 e2 : FileEntry} {t : Int}
    (h1 : (e1, t) ∈ videoFiles dir) (h2 : (e2, t) ∈ videoFiles dir) : e1 = e2 := by
  obtain ⟨-, hx1, -, hp1⟩ := mem_videoFiles.mp h1
  obtain ⟨-, hx2, -, hp2⟩ := mem_videoFiles.mp h2
  obtain ⟨s1, x1⟩ := e1
  obtain ⟨s2, x2⟩ := e2
  simp only at hx1 hx2 hp1 hp2
  rw [parse_eq_some_iff] at hp1 hp2
  simp [hx1, hx2, hp1, hp2]

theorem nodup_videoFiles {dir : List FileEntry} (h : dir.Nodup) :
    (videoFiles dir).Nodup := by
  refine List.Nodup.filterMap ?_ h
  intro a a2 b hb hb2
  rw [Option.mem_def] at hb hb2
  exact (videoEntry_eq_some hb).1.symm.trans (videoEntry_eq_some hb2).1

theorem mem_sortedVideos {dir : List FileEntry} {x : FileEntry × Int} :
    x ∈ sortedVideos dir ↔ x ∈ videoFiles dir := by
  unfold sortedVideos
  exact List.mem_insertionSort _

theorem nodup_sortedVideos {dir : List FileEntry} (h : dir.Nodup) :
    (sortedVideos dir).Nodup :=
  (List.perm_insertionSort _ _).nodup_iff.mpr (nodup_videoFiles h)

theorem pairwise_sortedVideos (dir : List FileEntry) :
    (sortedVideos dir).Pairwise (fun a b => b.2 ≤ a.2) :=
  @List.sorted_insertionSort (FileEntry × Int) (fun a b => b.2 ≤ a.2)
    (fun a b => inferInstanceAs (Decidable (b.2 ≤ a.2)))
    ⟨fun a b => le_total b.2 a.2⟩ ⟨fun _ _ _ hab hbc => le_trans hbc hab⟩
    (videoFiles dir)

theorem mem_deletedVideos {dir : List FileEntry} (hnd : dir.Nodup)
    (e : FileEntry) :
    e ∈ deletedVideos dir ↔
      ∃ t, (e, t) ∈ videoFiles dir ∧
        ∃ p ∈ videoFiles dir, dateOf p.2 = dateOf t ∧ t < p.2 := by
  unfold deletedVideos videosByDate
  rw [List.mem_flatten]
  constructor
  · rintro ⟨l2, hl2, hmem⟩
    rw [List.mem_map] at hl2
    obtain ⟨⟨k, g⟩, hkg, rfl⟩ := hl2
    rw [mem_groupByKey] at hkg
    obtain ⟨hg, hne⟩ := hkg
    have hPg : g.Pairwise (fun a b => b.2 ≤ a.2) := by
      rw [hg]; exact (pairwise_sortedVideos dir).sublist (List.filter_sublist _)
    have hNg : g.Nodup := by
      rw [hg]; exact (nodup_sortedVideos hnd).sublist (List.filter_sublist _)
    rcases g with - | ⟨hd, tl⟩
    · exact absurd rfl hne
    rw [List.mem_map] at hmem
    obtain ⟨x, hx, rfl⟩ := hmem
    simp only [List.drop_one, List.tail_cons] at hx
    have hxg : x ∈ hd :: tl := List.mem_cons_of_mem _ hx
    have hhdg : hd ∈ hd :: tl := List.mem_cons_self _ _
    have hxvf : (x.1, x.2) ∈ videoFiles dir := by
      have : x ∈ sortedVideos dir :=
        List.mem_of_mem_filter (a := x) (hg ▸ hxg)
      exact mem_sortedVideos.mp this
    have hhdvf : (hd.1, hd.2) ∈ videoFiles dir := by
      have : hd ∈ sortedVideos dir :=
        List.mem_of_mem_filter (a := hd) (hg ▸ hhdg)
      exact mem_sortedVideos.mp this
    have hdx : dateOf x.2 = k := by
      have := List.of_mem_filter (a := x) (hg ▸ hxg)
      simpa using this
    have hdhd : dateOf hd.2 = k := by
      have := List.of_mem_filter (a := hd) (hg ▸ hhdg)
      simpa using this
    have hle : x.2 ≤ hd.2 := (List.pairwise_cons.mp hPg).1 x hx
    have hnex : x ≠ hd := by
      intro hxe
      exact (List.nodup_cons.mp hNg).1 (hxe ▸ hx)
    have hlt : x.2 < hd.2 := by
      rcases lt_or_eq_of_le hle with h | h
      · exact h
      · exact absurd (Prod.ext (videoFiles_time_inj (h ▸ hxvf) hhdvf) h) hnex
    exact ⟨x.2, hxvf, hd, hhdvf, by rw [hdhd, hdx], hlt⟩
  · rintro ⟨t, het, p, hp, hdate, hlt⟩
    have hets : (e, t) ∈ sortedVideos dir := mem_sortedVideos.mpr het
    have hps : p ∈ sortedVideos dir := mem_sortedVideos.mpr hp
    set g := (sortedVideos dir).filter
        (fun v => decide (dateOf v.2 = dateOf t)) with hgdef
    have hetg : (e, t) ∈ g := by
      rw [hgdef]
      exact List.mem_filter.mpr ⟨hets, by simp⟩
    have hpg : p ∈ g := by
      rw [hgdef]
      exact List.mem_filter.mpr ⟨hps, by simp [hdate]⟩
    have hkg : (dateOf t, g) ∈ groupByKey (fun v => dateOf v.2) (sortedVideos dir) :=
      (mem_groupByKey _ _ _ _).mpr
        ⟨hgdef, fun hnil => List.not_mem_nil _ (hnil ▸ hetg)⟩
    refine ⟨(g.drop 1).map Prod.fst, List.mem_map.mpr ⟨(dateOf t, g), hkg, rfl⟩, ?_⟩
    have hPg : g.Pairwise (fun a b => b.2 ≤ a.2) := by
      rw [hgdef]; exact (pairwise_sortedVideos dir).sublist (List.filter_sublist _)
    rcases hG : g with - | ⟨hd, tl⟩
    · rw [hG] at hetg; simp at hetg
    have hhd : (e, t) ≠ hd := by
      intro hhd
      have hple : p.2 ≤ hd.2 := by
        rw [hG] at hpg hPg
        rcases List.mem_cons.mp hpg with rfl | hptl
        · exact le_refl _
        · exact (List.pairwise_cons.mp hPg).1 p hptl
      rw [← hhd] at hple
      exact absurd hlt (not_lt.mpr hple)
    have hetl : (e, t) ∈ tl := by
      rw [hG] at hetg
      rcases List.mem_cons.mp hetg with h | h
      · exact absurd h hhd
      · exact h
    simp only [List.drop_one, List.tail_cons, List.mem_map]
    exact ⟨(e, t), hetl, rfl⟩

theorem mem_cleanupOldVideos {dir : List FileEntry} {e : FileEntry} :
    e ∈ cleanupOldVideos dir ↔ e ∈ dir ∧ e ∉ deletedVideos dir := by
  simp [cleanupOldVideos, List.mem_filter]

/-- C2 counterexample: with the container format configured to `mkv`, two
same-day timestamped non-alias videos both survive the sweep — the sweep only
globs `*.mp4` — falsifying that at most one non-alias video per calendar date
remains whatever the configured container format. -/
theorem video_retention_counterexample :
    cleanupOldVideos [⟨.stamped 0, "mkv"⟩, ⟨.stamped 60, "mkv"⟩] =
      [⟨.stamped 0, "mkv"⟩, ⟨.stamped 60, "mkv"⟩] ∧
    dateOf 0 = dateOf 60 ∧
    (⟨.stamped 0, "mkv"⟩ : FileEntry) ≠ ⟨.stamped 60, "mkv"⟩ ∧
    isLatestAlias ⟨.stamped 0, "mkv"⟩ = false ∧
    isLatestAlias ⟨.stamped 60, "mkv"⟩ = false := by decide

/-- C2 (amended): the same-day retention sweep groups only the parseable,
non-alias `*.mp4` videos of the camera by calendar date; among those, for every
calendar date at most one video remains after the sweep, and the one with the
maximum creation timestamp always survives; videos of any other extension and
`latest.`-alias files are never deleted by the sweep. -/
theorem video_retention_sweep (dir : List FileEntry) (hnd : dir.Nodup) :
    (∀ e1 e2 t1 t2, e1 ∈ cleanupOldVideos dir → e2 ∈ cleanupOldVideos dir →
      e1.ext = "mp4" → e2.ext = "mp4" →
      e1.stem.parse = some t1 → e2.stem.parse = some t2 →
      dateOf t1 = dateOf t2 → e1 = e2) ∧
    (∀ e t, e ∈ dir → e.ext = "mp4" → e.stem.parse = some t →
      (∀ e2 t2, e2 ∈ dir → e2.ext = "mp4" → e2.stem.parse = some t2 →
        dateOf t2 = dateOf t → t2 ≤ t) →
      e ∈ cleanupOldVideos dir) ∧
    (∀ e, e ∈ dir → e.ext ≠ "mp4" → e ∈ cleanupOldVideos dir) ∧
    (∀ e, e ∈ dir → isLatestAlias e = true → e ∈ cleanupOldVideos dir) := by
  refine ⟨?_, ?_, ?_, ?_⟩
  · intro e1 e2 t1 t2 hc1 hc2 hx1 hx2 hp1 hp2 hdate
    have hd1 := mem_cleanupOldVideos.mp hc1
    have hd2 := mem_cleanupOldVideos.mp hc2
    have hv1 : (e1, t1) ∈ videoFiles dir :=
      mem_videoFiles.mpr ⟨hd1.1, hx1, isLatestAlias_of_parse hp1, hp1⟩
    have hv2 : (e2, t2) ∈ videoFiles dir :=
      mem_videoFiles.mpr ⟨hd2.1, hx2, isLatestAlias_of_parse hp2, hp2⟩
    rcases lt_trichotomy t1 t2 with hlt | heq | hgt
    · exact absurd ((mem_deletedVideos hnd e1).mpr
        ⟨t1, hv1, (e2, t2), hv2, hdate.symm, hlt⟩) hd1.2
    · exact videoFiles_time_inj hv1 (heq ▸ hv2)
    · exact absurd ((mem_deletedVideos hnd e2).mpr
        ⟨t2, hv2, (e1, t1), hv1, hdate, hgt⟩) hd2.2
  · intro e t he hx hp hmax
    refine mem_cleanupOldVideos.mpr ⟨he, fun hdel => ?_⟩
    obtain ⟨u, hu, p, hpv, hpd, hplt⟩ := (mem_deletedVideos hnd e).mp hdel
    have hpu : e.stem.parse = some u := (mem_videoFiles.mp hu).2.2.2
    have hut : u = t := by
      rw [hp] at hpu
      injection hpu with h0
      exact h0.symm
    subst hut
    obtain ⟨hpdir, hpx, -, hpp⟩ := mem_videoFiles.mp hpv
    exact absurd hplt (not_lt.mpr (hmax p.1 p.2 hpdir hpx hpp hpd))
  · intro e he hx
    refine mem_cleanupOldVideos.mpr ⟨he, fun hdel => ?_⟩
    obtain ⟨u, hu, -⟩ := (mem_deletedVideos hnd e).mp hdel
    exact hx (mem_videoFiles.mp hu).2.1
  · intro e he hlat
    refine mem_cleanupOldVideos.mpr ⟨he, fun hdel => ?_⟩
    obtain ⟨u, hu, -⟩ := (mem_deletedVideos hnd e).mp hdel
    rw [(mem_videoFiles.mp hu).2.2.1] at hlat
    cases hlat

/-- Witness for C2 (amended): in a directory with two same-day mp4 videos, a
`latest` alias and an mkv file, the newest mp4, the alias and the mkv file all
survive the sweep while the older same-day mp4 is deleted. -/
theorem video_retention_sweep_witness :
    (⟨.stamped 60, "mp4"⟩ : FileEntry) ∈ cleanupOldVideos
      [⟨.stamped 0, "mp4"⟩, ⟨.stamped 60, "mp4"⟩, ⟨.raw "latest", "mp4"⟩,
       ⟨.stamped 5, "mkv"⟩] ∧
    (⟨.stamped 5, "mkv"⟩ : FileEntry) ∈ cleanupOldVideos
      [⟨.stamped 0, "mp4"⟩, ⟨.stamped 60, "mp4"⟩, ⟨.raw "latest", "mp4"⟩,
       ⟨.stamped 5, "mkv"⟩] ∧
    (⟨.raw "latest", "mp4"⟩ : FileEntry) ∈ cleanupOldVideos
      [⟨.stamped 0, "mp4"⟩, ⟨.stamped 60, "mp4"⟩, ⟨.raw "latest", "mp4"⟩,
       ⟨.stamped 5, "mkv"⟩] :=
  ⟨(video_retention_sweep _ (by decide)).2.1 ⟨.stamped 60, "mp4"⟩ 60
      (by decide) rfl rfl
      (by
        intro e2 t2 he2 hx2 hp2 hd2
        fin_cases he2 <;> (simp_all [EntryName.parse]; try omega)),
   (video_retention_sweep _ (by decide)).2.2.1 ⟨.stamped 5, "mkv"⟩
      (by decide) (by decide),
   (video_retention_sweep _ (by decide)).2.2.2 ⟨.raw "latest", "mp4"⟩
      (by decide) (by decide)⟩

end CCTV
